import Mathlib

/-!
# Breakpoint Bucket — verification of the grouping/reconciliation core

Shallow embedding of the breakpoint-grouping extension:
* `BreakpointInfo`, `BreakpointGroup` mirror the interfaces in `types.ts`;
* `SourceBreakpoint` models the host editor's source breakpoint objects
  (location = file path + 0-based line + character, condition, hit condition,
  log message, enabled flag);
* `ManagerState` bundles the `BreakpointManager` fields (`groups` and
  `breakpoints` maps, modelled as lists in insertion order with first-match
  lookup, exactly the observable behaviour of a JS `Map`), the host's live
  breakpoint list, and counters for persistence calls (`saveGroups`) and
  change notifications (`_onDidChangeGroups.fire`).

Operations are translated line by line from `breakpointManager.ts`,
`treeProvider.ts` and `extension.ts`.
-/

namespace BreakpointBucket

/-- Host editor source breakpoint (`vscode.SourceBreakpoint`): location
(`uri.fsPath`, 0-based `range.start.line`, `range.start.character`),
condition, hit condition, log message and enabled flag. -/
structure SourceBreakpoint where
  file : String
  line0 : Nat
  column : Nat
  condition : Option String
  hitCondition : Option String
  logMessage : Option String
  enabled : Bool
deriving DecidableEq, Repr

/-- `BreakpointInfo` from `types.ts`: the mirrored record of a host breakpoint. -/
structure BreakpointInfo where
  id : String
  file : String
  line : Nat
  column : Option Nat
  condition : Option String
  hitCount : Option Nat
  logMessage : Option String
  enabled : Bool
deriving DecidableEq, Repr

/-- `BreakpointGroup` from `types.ts`. -/
structure BreakpointGroup where
  id : String
  name : String
  breakpoints : List String
  enabled : Bool
  color : Option String
  description : Option String
deriving DecidableEq, Repr

/-- The `BreakpointManager` state plus the host's live breakpoint list.
`groups` and `breakpoints` are the manager's two `Map`s (insertion order,
first-match lookup); `saveCount` counts `saveGroups` calls and `notifyCount`
counts `_onDidChangeGroups.fire()` calls. -/
structure ManagerState where
  groups : List BreakpointGroup
  breakpoints : List BreakpointInfo
  host : List SourceBreakpoint
  saveCount : Nat
  notifyCount : Nat
deriving DecidableEq, Repr

/-- `generateBreakpointId`: `fsPath + ":" + (line + 1)`. -/
def generateBreakpointId (bp : SourceBreakpoint) : String :=
  bp.file ++ ":" ++ toString (bp.line0 + 1)

/-- `this.groups.get(groupId)`: first entry with the given key. -/
def lookupGroup (groups : List BreakpointGroup) (groupId : String) :
    Option BreakpointGroup :=
  groups.find? (fun g => g.id == groupId)

/-- In-place mutation of the entry `this.groups.get(groupId)`: replace the
first entry whose key matches. -/
def updateFirstGroup : List BreakpointGroup → String →
    (BreakpointGroup → BreakpointGroup) → List BreakpointGroup
  | [], _, _ => []
  | g :: rest, groupId, f =>
    if g.id == groupId then f g :: rest else g :: updateFirstGroup rest groupId f

/-- `this.breakpoints.get(breakpointId)`: first entry with the given key. -/
def lookupBreakpoint (breakpoints : List BreakpointInfo) (breakpointId : String) :
    Option BreakpointInfo :=
  breakpoints.find? (fun bp => bp.id == breakpointId)

/-- In-place mutation `breakpointInfo.enabled = enabled` of the entry
`this.breakpoints.get(breakpointId)` (no-op if the key is absent). -/
def patchEnabled : List BreakpointInfo → String → Bool → List BreakpointInfo
  | [], _, _ => []
  | bp :: rest, breakpointId, enabled =>
    if bp.id == breakpointId then { bp with enabled := enabled } :: rest
    else bp :: patchEnabled rest breakpointId enabled

/-- `Map.set`: overwrite in place if the key exists, else append. -/
def insertMirror : List BreakpointInfo → BreakpointInfo → List BreakpointInfo
  | [], info => [info]
  | bp :: rest, info =>
    if bp.id == info.id then info :: rest else bp :: insertMirror rest info

/-- The `BreakpointInfo` built in `syncBreakpoints` from a host source
breakpoint (``parseInt`` of the hit condition is modelled as a decimal
parse). -/
def toBreakpointInfo (bp : SourceBreakpoint) : BreakpointInfo :=
  { id := generateBreakpointId bp
    file := bp.file
    line := bp.line0 + 1
    column := some bp.column
    condition := bp.condition
    hitCount := bp.hitCondition.bind String.toNat?
    logMessage := bp.logMessage
    enabled := bp.enabled }

/-- `vscode.debug.removeBreakpoints([bp])`: remove that breakpoint object
from the live list (first occurrence equal to it). -/
def removeFirst : List SourceBreakpoint → SourceBreakpoint → List SourceBreakpoint
  | [], _ => []
  | x :: xs, bp => if x = bp then xs else x :: removeFirst xs bp

/-- The mirror rebuilt from the host list: clear, then one `Map.set` per live
source breakpoint (the loop body of `syncBreakpoints`). -/
def buildMirror (host : List SourceBreakpoint) : List BreakpointInfo :=
  host.foldl (fun m bp => insertMirror m (toBreakpointInfo bp)) []

/-- `syncBreakpoints`: clear the mirror and re-insert a record for every live
source breakpoint, then fire a groups-changed notification. -/
def syncBreakpoints (st : ManagerState) : ManagerState :=
  { st with
    breakpoints := buildMirror st.host
    notifyCount := st.notifyCount + 1 }

/-- `createGroup`, with the generated id supplied externally (the source
derives it from the clock plus a random suffix). -/
def createGroup (st : ManagerState) (newId name : String)
    (description : Option String) : ManagerState :=
  { st with
    groups := st.groups ++ [{ id := newId, name := name, breakpoints := [],
                              enabled := true, color := none,
                              description := description }]
    saveCount := st.saveCount + 1
    notifyCount := st.notifyCount + 1 }

/-- `addBreakpointToGroup`: only when the group exists, the breakpoint is in
the mirror, and the id is not already a member, append it and persist/notify. -/
def addBreakpointToGroup (st : ManagerState) (breakpointId groupId : String) :
    ManagerState :=
  match lookupGroup st.groups groupId with
  | none => st
  | some group =>
    match lookupBreakpoint st.breakpoints breakpointId with
    | none => st
    | some _ =>
      if breakpointId ∈ group.breakpoints then st
      else
        { st with
          groups := updateFirstGroup st.groups groupId
            (fun g => { g with breakpoints := g.breakpoints ++ [breakpointId] })
          saveCount := st.saveCount + 1
          notifyCount := st.notifyCount + 1 }

/-- `removeBreakpointFromGroup`: if the group exists, filter the member list
and persist/notify (even when nothing was removed). -/
def removeBreakpointFromGroup (st : ManagerState) (breakpointId groupId : String) :
    ManagerState :=
  match lookupGroup st.groups groupId with
  | none => st
  | some _ =>
    { st with
      groups := updateFirstGroup st.groups groupId
        (fun g => { g with
          breakpoints := g.breakpoints.filter (fun id => id != breakpointId) })
      saveCount := st.saveCount + 1
      notifyCount := st.notifyCount + 1 }

/-- One iteration of the `group.breakpoints.forEach` loop in
`updateGroupBreakpoints`: if the member id is in the mirror and a matching
host breakpoint exists in the snapshot taken at loop entry, replace it in the
live list by an equal breakpoint carrying the group's enabled flag. -/
def updateGroupStep (snapshot : List SourceBreakpoint)
    (mirror : List BreakpointInfo) (groupEnabled : Bool)
    (host : List SourceBreakpoint) (breakpointId : String) :
    List SourceBreakpoint :=
  match lookupBreakpoint mirror breakpointId with
  | none => host
  | some _ =>
    match snapshot.find? (fun bp => generateBreakpointId bp == breakpointId) with
    | none => host
    | some old => removeFirst host old ++ [{ old with enabled := groupEnabled }]

/-- `updateGroupBreakpoints`: walk the member list, replacing each matching
host breakpoint (the `vscode.debug.breakpoints` snapshot is read once at
entry, while removals/additions act on the live list). -/
def updateGroupBreakpointsHost (snapshot : List SourceBreakpoint)
    (mirror : List BreakpointInfo) (groupEnabled : Bool)
    (memberIds : List String) (host : List SourceBreakpoint) :
    List SourceBreakpoint :=
  memberIds.foldl (updateGroupStep snapshot mirror groupEnabled) host

/-- `enableGroup` / `disableGroup`: set the group flag, run
`updateGroupBreakpoints` against the host, persist and notify. The flag is
written before the walk, so the walk uses the new value. -/
def setGroupEnabled (st : ManagerState) (groupId : String) (enabled : Bool) :
    ManagerState :=
  match lookupGroup st.groups groupId with
  | none => st
  | some group =>
    { st with
      groups := updateFirstGroup st.groups groupId
        (fun g => { g with enabled := enabled })
      host := updateGroupBreakpointsHost st.host st.breakpoints enabled
        group.breakpoints st.host
      saveCount := st.saveCount + 1
      notifyCount := st.notifyCount + 1 }

/-- `enableGroup(groupId)`. -/
def enableGroup (st : ManagerState) (groupId : String) : ManagerState :=
  setGroupEnabled st groupId true

/-- `disableGroup(groupId)`. -/
def disableGroup (st : ManagerState) (groupId : String) : ManagerState :=
  setGroupEnabled st groupId false

/-- `toggleBreakpoint`: find the host breakpoint by recomputed identity; if
found, replace it by an equal breakpoint with the new enabled flag (remove
old, add new) and patch the mirrored record's enabled field; otherwise do
nothing. No notification is fired here. -/
def toggleBreakpoint (st : ManagerState) (breakpointId : String)
    (enabled : Bool) : ManagerState :=
  match st.host.find? (fun bp => generateBreakpointId bp == breakpointId) with
  | none => st
  | some old =>
    { st with
      host := removeFirst st.host old ++ [{ old with enabled := enabled }]
      breakpoints := patchEnabled st.breakpoints breakpointId enabled }

/-- `getBreakpointsInGroup`: map member ids through the mirror, dropping the
orphaned ones. -/
def getBreakpointsInGroup (st : ManagerState) (groupId : String) :
    List BreakpointInfo :=
  match lookupGroup st.groups groupId with
  | none => []
  | some group =>
    group.breakpoints.filterMap (fun id => lookupBreakpoint st.breakpoints id)

/-- Membership of an id in the set of all grouped ids (the `Set` built in
`getUngroupedBreakpoints`). -/
def isGroupedId (groups : List BreakpointGroup) (breakpointId : String) : Bool :=
  groups.any (fun g => breakpointId ∈ g.breakpoints)

/-- `getUngroupedBreakpoints`: every mirrored breakpoint whose id is in no
group's member list. -/
def getUngroupedBreakpoints (st : ManagerState) : List BreakpointInfo :=
  st.breakpoints.filter (fun bp => !(isGroupedId st.groups bp.id))

/-- `getGroupForBreakpoint`: linear scan, first group whose member list
contains the id. -/
def getGroupForBreakpoint (st : ManagerState) (breakpointId : String) :
    Option BreakpointGroup :=
  st.groups.find? (fun g => breakpointId ∈ g.breakpoints)

/-- The tri-state of a group (`'All Enabled' | 'Partial' | 'All Disabled'` in
the source; `mixed` stands for the source's `'Partial'`). -/
inductive TriState where
  | allEnabled
  | mixed
  | allDisabled
deriving DecidableEq, Repr

/-- The tri-state computation of `resolveTreeItem` in `treeProvider.ts`
(identical to `calculateGroupState` in `types.ts`). -/
def resolveGroupState (st : ManagerState) (groupId : String) : TriState :=
  let breakpoints := getBreakpointsInGroup st groupId
  let enabledCount := (breakpoints.filter (fun bp => bp.enabled)).length
  if breakpoints.length = 0 then .allDisabled
  else if enabledCount = 0 then .allDisabled
  else if enabledCount = breakpoints.length then .allEnabled
  else .mixed

/-- The body of the confirmed branch of the `removeAllGroups` command
(`extension.ts`): empty every group's member list, persist, notify. The
early return when no groups exist is kept (the confirmation prompt is never
reached in that case). -/
def removeAllGroupsConfirmed (st : ManagerState) : ManagerState :=
  if st.groups.isEmpty then st
  else
    { st with
      groups := st.groups.map (fun g => { g with breakpoints := [] })
      saveCount := st.saveCount + 1
      notifyCount := st.notifyCount + 1 }

/-- The core of the `moveBreakpointToGroup` command after the destination
group has been picked: remove the id from the first group containing it (if
any), then `addBreakpointToGroup` into the destination. -/
def moveBreakpointToGroupCore (st : ManagerState)
    (breakpointId destGroupId : String) : ManagerState :=
  let st1 :=
    match getGroupForBreakpoint st breakpointId with
    | some currentGroup => removeBreakpointFromGroup st breakpointId currentGroup.id
    | none => st
  addBreakpointToGroup st1 breakpointId destGroupId

/-- The `enableBreakpoint` command function: truthiness guard on
`element.breakpointId`, then the manager call. -/
def cmdEnableBreakpoint (st : ManagerState) (breakpointId : String) :
    ManagerState :=
  if breakpointId = "" then st else toggleBreakpoint st breakpointId true

/-- The `disableBreakpoint` command function: truthiness guard on
`element.breakpointId`, then the manager call. -/
def cmdDisableBreakpoint (st : ManagerState) (breakpointId : String) :
    ManagerState :=
  if breakpointId = "" then st else toggleBreakpoint st breakpointId false

/-- A tree item reaching the checkbox handler: a group item, or a breakpoint
item (`BreakpointItem` and `UngroupedBreakpointItem` are handled
identically). -/
inductive CheckboxItem where
  | groupItem (groupId : String)
  | breakpointItem (breakpointId : String)
deriving DecidableEq, Repr

/-- The effect of one checkbox event on the state: group items call
`enableGroup`/`disableGroup` directly, breakpoint items go through the
guarded command functions. -/
def applyCheckboxEvent (st : ManagerState) (ev : CheckboxItem × Bool) :
    ManagerState :=
  match ev with
  | (.groupItem gid, checked) =>
    if checked then enableGroup st gid else disableGroup st gid
  | (.breakpointItem bid, checked) =>
    if checked then cmdEnableBreakpoint st bid else cmdDisableBreakpoint st bid

/-- The `onDidChangeCheckboxState` handler's loop over `e.items` (taken with
the re-entrancy guard clear at entry): group toggles and breakpoint enables
continue the loop, while the first breakpoint disable is applied and then
`break`s out. -/
def processCheckboxBatch (st : ManagerState) :
    List (CheckboxItem × Bool) → ManagerState
  | [] => st
  | (item, checked) :: rest =>
    match item with
    | .groupItem gid =>
      processCheckboxBatch
        (if checked then enableGroup st gid else disableGroup st gid) rest
    | .breakpointItem bid =>
      if checked then processCheckboxBatch (cmdEnableBreakpoint st bid) rest
      else cmdDisableBreakpoint st bid

/-- Whether a checkbox event is a disable of an individual breakpoint. -/
def isBreakpointDisable : CheckboxItem × Bool → Bool
  | (.breakpointItem _, checked) => !checked
  | (.groupItem _, _) => false

/-- The invariant named by the specification: no breakpoint identity appears
in more than one group's member list. -/
def memberInvariant (groups : List BreakpointGroup) : Prop :=
  groups.Pairwise (fun a b => ∀ id ∈ a.breakpoints, id ∉ b.breakpoints)

/-- Decidability of `List.Pairwise` for a decidable relation. -/
def decPairwise {α : Type} (R : α → α → Prop) [DecidableRel R] :
    (l : List α) → Decidable (l.Pairwise R)
  | [] => .isTrue List.Pairwise.nil
  | a :: l =>
    haveI : Decidable (l.Pairwise R) := decPairwise R l
    decidable_of_iff ((∀ b ∈ l, R a b) ∧ l.Pairwise R) List.pairwise_cons.symm

instance : DecidablePred memberInvariant := fun gs => by
  unfold memberInvariant
  exact decPairwise _ gs

/-- A store operation for invariant claims: a single `addBreakpointToGroup`
call or a `moveBreakpointToGroup` command. -/
inductive StoreOp where
  | add (breakpointId groupId : String)
  | move (breakpointId groupId : String)
deriving DecidableEq, Repr

/-- Apply one store operation. -/
def applyOp (st : ManagerState) : StoreOp → ManagerState
  | .add bid gid => addBreakpointToGroup st bid gid
  | .move bid gid => moveBreakpointToGroupCore st bid gid

/-- Apply a sequence of store operations, oldest first. -/
def applyOps (st : ManagerState) (ops : List StoreOp) : ManagerState :=
  ops.foldl applyOp st

/-- Whether a store operation is a move. -/
def StoreOp.isMove : StoreOp → Bool
  | .move _ _ => true
  | .add _ _ => false

/-- The present members of a group: member identities resolved through the
mirror, orphaned ids dropped (the body of `getBreakpointsInGroup`). -/
def presentMembers (st : ManagerState) (g : BreakpointGroup) :
    List BreakpointInfo :=
  g.breakpoints.filterMap (fun id => lookupBreakpoint st.breakpoints id)

/-! ### Concrete fixture states used to evaluate the model -/

/-- A host source breakpoint at `a`, 0-based line 9 (identity `a:10`),
enabled. -/
def hostA : SourceBreakpoint :=
  { file := "a", line0 := 9, column := 0, condition := none,
    hitCondition := none, logMessage := none, enabled := true }

/-- A host source breakpoint at `b`, 0-based line 0 (identity `b:1`),
disabled. -/
def hostB : SourceBreakpoint :=
  { file := "b", line0 := 0, column := 0, condition := none,
    hitCondition := none, logMessage := none, enabled := false }

/-- The mirrored record of `hostA`. -/
def infoA : BreakpointInfo := toBreakpointInfo hostA

/-- The mirrored record of `hostB`. -/
def infoB : BreakpointInfo := toBreakpointInfo hostB

/-- A state with one live, mirrored breakpoint and no groups. -/
def stScenario : ManagerState :=
  { groups := [], breakpoints := [infoA], host := [hostA],
    saveCount := 0, notifyCount := 0 }

/-- A state with group `g1` containing `a:10` and an empty group `g2`. -/
def stTwoGroups : ManagerState :=
  { groups := [{ id := "g1", name := "A", breakpoints := ["a:10"],
                 enabled := true, color := none, description := none },
               { id := "g2", name := "B", breakpoints := [],
                 enabled := true, color := none, description := none }]
    breakpoints := [infoA], host := [hostA], saveCount := 0, notifyCount := 0 }

/-- A state whose single group has one enabled and one disabled present
member. -/
def stMixed : ManagerState :=
  { groups := [{ id := "g", name := "G", breakpoints := ["a:10", "b:1"],
                 enabled := true, color := none, description := none }]
    breakpoints := [infoA, infoB], host := [hostA, hostB],
    saveCount := 0, notifyCount := 0 }

/-- A state where group `g1` holds only the orphaned identity `zz` (absent
from the mirror) next to an empty group `g2`. -/
def stOrphan : ManagerState :=
  { groups := [{ id := "g1", name := "A", breakpoints := ["zz"],
                 enabled := true, color := none, description := none },
               { id := "g2", name := "B", breakpoints := [],
                 enabled := true, color := none, description := none }]
    breakpoints := [infoA], host := [hostA], saveCount := 0, notifyCount := 0 }

/-- The empty manager state. -/
def emptyState : ManagerState :=
  { groups := [], breakpoints := [], host := [], saveCount := 0,
    notifyCount := 0 }

/-! ### Generic list lemmas -/

theorem find?_eq_head?_filter {α : Type} (p : α → Bool) (l : List α) :
    l.find? p = (l.filter p).head? := by
  induction l with
  | nil => rfl
  | cons a l ih =>
    rw [List.find?_cons, List.filter_cons]
    cases h : p a
    · exact ih
    · rfl

theorem length_filter_eq_length_iff {α : Type} (p : α → Bool) (l : List α) :
    (l.filter p).length = l.length ↔ ∀ a ∈ l, p a = true := by
  induction l with
  | nil => simp
  | cons a l ih =>
    cases h : p a with
    | true => simp [List.filter_cons, h, ih]
    | false =>
      have hle := List.length_filter_le p l
      simp [List.filter_cons, h]
      omega

theorem filter_eq_nil_iff_all {α : Type} (p : α → Bool) (l : List α) :
    l.filter p = [] ↔ ∀ a ∈ l, p a = false := by
  induction l with
  | nil => simp
  | cons a l ih =>
    cases h : p a with
    | true => simp [List.filter_cons, h]
    | false => simp [List.filter_cons, h, ih]

theorem length_filter_eq_zero_iff {α : Type} (p : α → Bool) (l : List α) :
    (l.filter p).length = 0 ↔ ∀ a ∈ l, p a = false := by
  rw [List.length_eq_zero, filter_eq_nil_iff_all]

theorem reverse_find?_of_filter_singleton {α : Type} {p : α → Bool}
    {l : List α} {a : α} (h : l.filter p = [a]) :
    l.reverse.find? p = some a := by
  rw [find?_eq_head?_filter, List.filter_reverse, h]
  rfl

theorem reverse_find?_of_filter_nil {α : Type} {p : α → Bool}
    {l : List α} (h : l.filter p = []) : l.reverse.find? p = none := by
  rw [find?_eq_head?_filter, List.filter_reverse, h]
  rfl

theorem find?_beq_key_self {α : Type} (key : α → String) {l : List α} {a : α}
    (hnd : (l.map key).Nodup) (ha : a ∈ l) :
    l.find? (fun x => key x == key a) = some a := by
  induction l with
  | nil => cases ha
  | cons b l ih =>
    rcases List.mem_cons.mp ha with rfl | ha'
    · simp [List.find?_cons]
    · rw [List.map_cons, List.nodup_cons] at hnd
      have hne : key b ≠ key a := fun hc =>
        hnd.1 (hc ▸ List.mem_map_of_mem key ha')
      simp only [List.find?_cons, beq_eq_false_iff_ne.mpr hne]
      exact ih hnd.2 ha'

theorem filter_beq_key_of_find? {α : Type} (key : α → String) {l : List α}
    {c : String} {a : α} (hnd : (l.map key).Nodup)
    (hfind : l.find? (fun x => key x == c) = some a) :
    l.filter (fun x => key x == c) = [a] := by
  have hhead : (l.filter (fun x => key x == c)).head? = some a := by
    rw [← find?_eq_head?_filter]; exact hfind
  have hndf : ((l.filter (fun x => key x == c)).map key).Nodup :=
    List.Nodup.sublist (List.Sublist.map key (List.filter_sublist l)) hnd
  cases hf : l.filter (fun x => key x == c) with
  | nil => rw [hf] at hhead; cases hhead
  | cons x t =>
    rw [hf] at hhead
    cases hhead
    cases t with
    | nil => rfl
    | cons y t' =>
      exfalso
      rw [hf, List.map_cons, List.nodup_cons] at hndf
      have hx : key a = c := by
        have := List.find?_some hfind
        simpa using this
      have hy : (key y == c) = true := by
        have : y ∈ l.filter (fun x => key x == c) := by
          rw [hf]; exact List.mem_cons_of_mem _ (List.mem_cons_self y t')
        exact (List.mem_filter.mp this).2
      have : key a ∈ (y :: t').map key := by
        rw [List.map_cons]
        have : key y = key a := by rw [hx]; simpa using hy
        rw [this]
        exact List.mem_cons_self _ _
      exact hndf.1 this

/-! ### Lemmas about the keyed list operations -/

theorem lookupGroup_updateFirstGroup_self (gs : List BreakpointGroup)
    (gid : String) (f : BreakpointGroup → BreakpointGroup)
    (hf : ∀ g, (f g).id = g.id) :
    lookupGroup (updateFirstGroup gs gid f) gid = (lookupGroup gs gid).map f := by
  induction gs with
  | nil => rfl
  | cons g rest ih =>
    cases h : (g.id == gid)
    · simp only [updateFirstGroup, h, Bool.false_eq_true, if_false]
      unfold lookupGroup
      rw [List.find?_cons, List.find?_cons]
      simp only [h]
      exact ih
    · have hg : ((f g).id == gid) = true := by rw [hf g]; exact h
      simp only [updateFirstGroup, h, if_true]
      unfold lookupGroup
      rw [List.find?_cons, List.find?_cons]
      simp only [h, hg]
      rfl

theorem lookupGroup_updateFirstGroup_ne (gs : List BreakpointGroup)
    (gid gid' : String) (f : BreakpointGroup → BreakpointGroup)
    (hf : ∀ g, (f g).id = g.id) (hne : gid' ≠ gid) :
    lookupGroup (updateFirstGroup gs gid f) gid' = lookupGroup gs gid' := by
  induction gs with
  | nil => rfl
  | cons g rest ih =>
    cases h : (g.id == gid)
    · simp only [updateFirstGroup, h, Bool.false_eq_true, if_false]
      unfold lookupGroup
      rw [List.find?_cons, List.find?_cons]
      cases hgg : (g.id == gid')
      · exact ih
      · rfl
    · have hid : g.id = gid := by simpa using h
      have hgne : ((f g).id == gid') = false := by
        rw [hf g, hid]; exact beq_eq_false_iff_ne.mpr (fun hc => hne hc.symm)
      have hgne2 : (g.id == gid') = false := by
        rw [hid]; exact beq_eq_false_iff_ne.mpr (fun hc => hne hc.symm)
      simp only [updateFirstGroup, h, if_true]
      unfold lookupGroup
      rw [List.find?_cons, List.find?_cons]
      simp only [hgne, hgne2]

theorem updateFirstGroup_map_id (gs : List BreakpointGroup) (gid : String)
    (f : BreakpointGroup → BreakpointGroup) (hf : ∀ g, (f g).id = g.id) :
    (updateFirstGroup gs gid f).map (fun g => g.id) = gs.map (fun g => g.id) := by
  induction gs with
  | nil => rfl
  | cons g rest ih =>
    cases h : (g.id == gid)
    · simp only [updateFirstGroup, h, Bool.false_eq_true, if_false,
        List.map_cons]
      rw [ih]
    · simp only [updateFirstGroup, h, if_true, List.map_cons, hf g]

theorem updateFirstGroup_eq_map (gs : List BreakpointGroup) (gid : String)
    (f : BreakpointGroup → BreakpointGroup)
    (hnd : (gs.map (fun g => g.id)).Nodup) :
    updateFirstGroup gs gid f =
      gs.map (fun g => if g.id = gid then f g else g) := by
  induction gs with
  | nil => rfl
  | cons g rest ih =>
    rw [List.map_cons, List.nodup_cons] at hnd
    by_cases h : g.id = gid
    · have hrest : ∀ x ∈ rest, (if x.id = gid then f x else x) = id x := by
        intro x hx
        have hxne : x.id ≠ gid := fun hc =>
          hnd.1 (by rw [h, ← hc]; exact List.mem_map_of_mem _ hx)
        simp [hxne]
      have hmap : rest.map (fun x => if x.id = gid then f x else x) = rest := by
        rw [List.map_congr_left hrest, List.map_id]
      simp only [updateFirstGroup, beq_iff_eq.mpr h, if_true, List.map_cons,
        if_pos h, hmap]
    · simp only [updateFirstGroup, beq_eq_false_iff_ne.mpr h,
        Bool.false_eq_true, if_false, List.map_cons, if_neg h]
      rw [ih hnd.2]

theorem updateFirstGroup_of_lookup_none (gs : List BreakpointGroup)
    (gid : String) (f : BreakpointGroup → BreakpointGroup)
    (h : lookupGroup gs gid = none) : updateFirstGroup gs gid f = gs := by
  induction gs with
  | nil => rfl
  | cons g rest ih =>
    unfold lookupGroup at h
    rw [List.find?_cons] at h
    cases hg : (g.id == gid)
    · rw [hg] at h
      simp only [updateFirstGroup, hg, Bool.false_eq_true, if_false]
      rw [ih h]
    · rw [hg] at h; cases h

theorem updateFirstGroup_eq_self (gs : List BreakpointGroup) (gid : String)
    (f : BreakpointGroup → BreakpointGroup) {g : BreakpointGroup}
    (hg : lookupGroup gs gid = some g) (hfg : f g = g) :
    updateFirstGroup gs gid f = gs := by
  induction gs with
  | nil => cases hg
  | cons a rest ih =>
    unfold lookupGroup at hg
    rw [List.find?_cons] at hg
    cases ha : (a.id == gid)
    · rw [ha] at hg
      simp only [updateFirstGroup, ha, Bool.false_eq_true, if_false]
      rw [ih hg]
    · rw [ha] at hg
      cases hg
      simp only [updateFirstGroup, ha, if_true, hfg]

theorem pairwise_and_of {α : Type} {R S : α → α → Prop} {l : List α}
    (h1 : l.Pairwise R) (h2 : l.Pairwise S) :
    l.Pairwise (fun a b => R a b ∧ S a b) := by
  induction l with
  | nil => exact .nil
  | cons a l ih =>
    rw [List.pairwise_cons] at h1 h2 ⊢
    exact ⟨fun b hb => ⟨h1.1 b hb, h2.1 b hb⟩, ih h1.2 h2.2⟩

theorem pairwise_imp_of_mem {α : Type} {R S : α → α → Prop} {l : List α}
    (H : ∀ a b, a ∈ l → b ∈ l → R a b → S a b) (h : l.Pairwise R) :
    l.Pairwise S := by
  induction l with
  | nil => exact .nil
  | cons a l ih =>
    rw [List.pairwise_cons] at h ⊢
    refine ⟨fun b hb => H a b (List.mem_cons_self a l)
      (List.mem_cons_of_mem _ hb) (h.1 b hb), ?_⟩
    exact ih (fun x y hx hy => H x y (List.mem_cons_of_mem _ hx)
      (List.mem_cons_of_mem _ hy)) h.2

/-! ### Mirror and host-list lemmas -/

theorem generateBreakpointId_set_enabled (bp : SourceBreakpoint) (e : Bool) :
    generateBreakpointId { bp with enabled := e } = generateBreakpointId bp := rfl

theorem toBreakpointInfo_id (bp : SourceBreakpoint) :
    (toBreakpointInfo bp).id = generateBreakpointId bp := rfl

theorem lookupBreakpoint_insertMirror (m : List BreakpointInfo)
    (info : BreakpointInfo) (k : String) :
    lookupBreakpoint (insertMirror m info) k =
      if info.id = k then some info else lookupBreakpoint m k := by
  induction m with
  | nil =>
    by_cases h : info.id = k
    · simp [insertMirror, lookupBreakpoint, List.find?_cons, beq_iff_eq.mpr h, h]
    · simp [insertMirror, lookupBreakpoint, List.find?_cons,
        beq_eq_false_iff_ne.mpr h, h]
  | cons bp rest ih =>
    cases hb : (bp.id == info.id)
    · simp only [insertMirror, hb, Bool.false_eq_true, if_false]
      unfold lookupBreakpoint
      rw [List.find?_cons, List.find?_cons]
      cases hk : (bp.id == k)
      · exact ih
      · have h1 : bp.id = k := by simpa using hk
        have h2 : info.id ≠ k := fun hc =>
          (beq_eq_false_iff_ne.mp hb) (by rw [h1, hc])
        rw [if_neg h2]
    · have hbid : bp.id = info.id := by simpa using hb
      simp only [insertMirror, hb, if_true]
      unfold lookupBreakpoint
      rw [List.find?_cons, List.find?_cons]
      by_cases h : info.id = k
      · simp [beq_iff_eq.mpr h, if_pos h]
      · have hbk : (bp.id == k) = false := by
          rw [hbid]; exact beq_eq_false_iff_ne.mpr h
        simp [beq_eq_false_iff_ne.mpr h, hbk, if_neg h]

theorem lookupBreakpoint_foldl_insert (l : List SourceBreakpoint)
    (acc : List BreakpointInfo) (k : String) :
    lookupBreakpoint
        (l.foldl (fun m bp => insertMirror m (toBreakpointInfo bp)) acc) k =
      match l.reverse.find? (fun bp => generateBreakpointId bp == k) with
      | some bp => some (toBreakpointInfo bp)
      | none => lookupBreakpoint acc k := by
  induction l generalizing acc with
  | nil => simp
  | cons b l ih =>
    rw [List.foldl_cons, ih, List.reverse_cons, List.find?_append]
    cases hf : l.reverse.find? (fun bp => generateBreakpointId bp == k) with
    | some bp => rfl
    | none =>
      rw [lookupBreakpoint_insertMirror]
      by_cases h : generateBreakpointId b = k
      · simp [List.find?_cons, beq_iff_eq.mpr h, toBreakpointInfo_id, h]
      · simp [List.find?_cons, beq_eq_false_iff_ne.mpr h, toBreakpointInfo_id, h]

theorem lookupBreakpoint_buildMirror (host : List SourceBreakpoint) (k : String) :
    lookupBreakpoint (buildMirror host) k =
      match host.reverse.find? (fun bp => generateBreakpointId bp == k) with
      | some bp => some (toBreakpointInfo bp)
      | none => none := by
  rw [buildMirror, lookupBreakpoint_foldl_insert]
  cases host.reverse.find? (fun bp => generateBreakpointId bp == k) <;> rfl

theorem lookupBreakpoint_patchEnabled_self (m : List BreakpointInfo)
    (k : String) (e : Bool) :
    lookupBreakpoint (patchEnabled m k e) k =
      (lookupBreakpoint m k).map (fun r => { r with enabled := e }) := by
  induction m with
  | nil => rfl
  | cons bp rest ih =>
    cases h : (bp.id == k)
    · simp only [patchEnabled, h, Bool.false_eq_true, if_false]
      unfold lookupBreakpoint
      rw [List.find?_cons, List.find?_cons]
      simp only [h]
      exact ih
    · simp only [patchEnabled, h, if_true]
      unfold lookupBreakpoint
      rw [List.find?_cons, List.find?_cons]
      have h2 : (({ bp with enabled := e } : BreakpointInfo).id == k) = true := h
      simp only [h, h2]
      rfl

theorem lookupBreakpoint_patchEnabled_ne (m : List BreakpointInfo)
    (k k' : String) (e : Bool) (hne : k' ≠ k) :
    lookupBreakpoint (patchEnabled m k e) k' = lookupBreakpoint m k' := by
  induction m with
  | nil => rfl
  | cons bp rest ih =>
    cases h : (bp.id == k)
    · simp only [patchEnabled, h, Bool.false_eq_true, if_false]
      unfold lookupBreakpoint
      rw [List.find?_cons, List.find?_cons]
      cases hk : (bp.id == k')
      · exact ih
      · rfl
    · simp only [patchEnabled, h, if_true]
      unfold lookupBreakpoint
      rw [List.find?_cons, List.find?_cons]
      have hid : (({ bp with enabled := e } : BreakpointInfo).id) = bp.id := rfl
      rw [hid]
      cases hk : (bp.id == k')
      · rfl
      · have h1 : bp.id = k := by simpa using h
        have h2 : bp.id = k' := by simpa using hk
        exact absurd (h2.symm.trans h1) hne

theorem patchEnabled_of_lookup_none (m : List BreakpointInfo) (k : String)
    (e : Bool) (h : lookupBreakpoint m k = none) : patchEnabled m k e = m := by
  induction m with
  | nil => rfl
  | cons bp rest ih =>
    unfold lookupBreakpoint at h
    rw [List.find?_cons] at h
    cases hk : (bp.id == k)
    · rw [hk] at h
      simp only [patchEnabled, hk, Bool.false_eq_true, if_false]
      rw [ih h]
    · rw [hk] at h; cases h

theorem filter_removeFirst_of_neg (p : SourceBreakpoint → Bool)
    (l : List SourceBreakpoint) (bp : SourceBreakpoint) (h : p bp = false) :
    (removeFirst l bp).filter p = l.filter p := by
  induction l with
  | nil => rfl
  | cons x xs ih =>
    by_cases hx : x = bp
    · subst hx
      simp [removeFirst, List.filter_cons, h]
    · cases hpx : p x <;> simp [removeFirst, hx, List.filter_cons, hpx, ih]

theorem filter_removeFirst_of_pos (p : SourceBreakpoint → Bool)
    (l : List SourceBreakpoint) (bp : SourceBreakpoint) (h : p bp = true) :
    (removeFirst l bp).filter p = removeFirst (l.filter p) bp := by
  induction l with
  | nil => rfl
  | cons x xs ih =>
    by_cases hx : x = bp
    · subst hx
      simp [removeFirst, List.filter_cons, h]
    · cases hpx : p x <;> simp [removeFirst, hx, List.filter_cons, hpx, ih]

/-! ### Lemmas about the `updateGroupBreakpoints` walk -/

theorem updateGroupStep_filter_ne (snapshot : List SourceBreakpoint)
    (mirror : List BreakpointInfo) (e : Bool) (host : List SourceBreakpoint)
    (m k : String) (hne : m ≠ k) :
    (updateGroupStep snapshot mirror e host m).filter
        (fun bp => generateBreakpointId bp == k) =
      host.filter (fun bp => generateBreakpointId bp == k) := by
  unfold updateGroupStep
  cases hmir : lookupBreakpoint mirror m with
  | none => rfl
  | some r =>
    cases hfind : snapshot.find? (fun bp => generateBreakpointId bp == m) with
    | none => rfl
    | some old =>
      have hid : generateBreakpointId old = m := by
        simpa using List.find?_some hfind
      have hnk : (generateBreakpointId old == k) = false := by
        rw [hid]; exact beq_eq_false_iff_ne.mpr hne
      have hnew : (generateBreakpointId { old with enabled := e } == k) = false := by
        rw [generateBreakpointId_set_enabled]; exact hnk
      rw [List.filter_append, filter_removeFirst_of_neg _ _ _ hnk]
      simp [List.filter_cons, hnew]

theorem ugbHost_filter_all_ne (snapshot : List SourceBreakpoint)
    (mirror : List BreakpointInfo) (e : Bool) (ids : List String)
    (k : String) :
    ∀ host : List SourceBreakpoint, (∀ m ∈ ids, m ≠ k) →
    (updateGroupBreakpointsHost snapshot mirror e ids host).filter
        (fun bp => generateBreakpointId bp == k) =
      host.filter (fun bp => generateBreakpointId bp == k) := by
  induction ids with
  | nil => intro host _; rfl
  | cons i rest ih =>
    intro host h
    unfold updateGroupBreakpointsHost
    rw [List.foldl_cons]
    have hstep := updateGroupStep_filter_ne snapshot mirror e host i k
      (h i (List.mem_cons_self i rest))
    have hrest := ih (updateGroupStep snapshot mirror e host i)
      (fun m hm => h m (List.mem_cons_of_mem _ hm))
    unfold updateGroupBreakpointsHost at hrest
    rw [hrest, hstep]

theorem ugbHost_filter_nofind (snapshot : List SourceBreakpoint)
    (mirror : List BreakpointInfo) (e : Bool) (ids : List String)
    (k : String)
    (hfind : snapshot.find? (fun bp => generateBreakpointId bp == k) = none) :
    ∀ host : List SourceBreakpoint,
    (updateGroupBreakpointsHost snapshot mirror e ids host).filter
        (fun bp => generateBreakpointId bp == k) =
      host.filter (fun bp => generateBreakpointId bp == k) := by
  induction ids with
  | nil => intro host; rfl
  | cons i rest ih =>
    intro host
    unfold updateGroupBreakpointsHost
    rw [List.foldl_cons]
    have hstep : (updateGroupStep snapshot mirror e host i).filter
        (fun bp => generateBreakpointId bp == k) =
        host.filter (fun bp => generateBreakpointId bp == k) := by
      by_cases hik : i = k
      · subst hik
        unfold updateGroupStep
        cases lookupBreakpoint mirror i with
        | none => rfl
        | some r => rw [hfind]
      · exact updateGroupStep_filter_ne snapshot mirror e host i k hik
    have hrest := ih (updateGroupStep snapshot mirror e host i)
    unfold updateGroupBreakpointsHost at hrest
    rw [hrest, hstep]

theorem ugbHost_filter_target (snapshot : List SourceBreakpoint)
    (mirror : List BreakpointInfo) (e : Bool) (ids : List String) (k : String)
    (old : SourceBreakpoint)
    (hmir : lookupBreakpoint mirror k ≠ none)
    (hfind : snapshot.find? (fun bp => generateBreakpointId bp == k) = some old) :
    ∀ host : List SourceBreakpoint, ids.Nodup → k ∈ ids →
    host.filter (fun bp => generateBreakpointId bp == k) = [old] →
    (updateGroupBreakpointsHost snapshot mirror e ids host).filter
        (fun bp => generateBreakpointId bp == k) =
      [{ old with enabled := e }] := by
  induction ids with
  | nil => intro host _ hmem _; cases hmem
  | cons i rest ih =>
    intro host hnd hmem hhost
    rw [List.nodup_cons] at hnd
    unfold updateGroupBreakpointsHost
    rw [List.foldl_cons]
    by_cases hik : i = k
    · subst hik
      obtain ⟨r, hr⟩ := Option.ne_none_iff_exists'.mp hmir
      have hpos : (generateBreakpointId old == i) = true := by
        simpa using List.find?_some hfind
      have hstep : updateGroupStep snapshot mirror e host i =
          removeFirst host old ++ [{ old with enabled := e }] := by
        unfold updateGroupStep
        rw [hr, hfind]
      rw [hstep]
      have hall : ∀ m ∈ rest, m ≠ i := fun m hm hc => hnd.1 (hc ▸ hm)
      have hpres := ugbHost_filter_all_ne snapshot mirror e rest i
        (removeFirst host old ++ [{ old with enabled := e }]) hall
      unfold updateGroupBreakpointsHost at hpres
      rw [hpres, List.filter_append, filter_removeFirst_of_pos _ _ _ hpos, hhost]
      have hnew : (generateBreakpointId { old with enabled := e } == i) = true := by
        rw [generateBreakpointId_set_enabled]; exact hpos
      simp [removeFirst, List.filter_cons, hnew]
    · have hmem' : k ∈ rest := by
        rcases List.mem_cons.mp hmem with hc | hm
        · exact absurd hc.symm hik
        · exact hm
      have hstep := updateGroupStep_filter_ne snapshot mirror e host i k hik
      have hrec := ih (updateGroupStep snapshot mirror e host i) hnd.2 hmem'
        (by rw [hstep]; exact hhost)
      unfold updateGroupBreakpointsHost at hrec
      exact hrec

/-! ### Invariant lemmas -/

theorem disjointBreakpoints_symm :
    Symmetric (fun a b : BreakpointGroup =>
      ∀ id ∈ a.breakpoints, id ∉ b.breakpoints) := by
  intro a b h id hidb hida
  exact h id hida hidb

theorem memberInvariant_map_shrink {gs : List BreakpointGroup}
    {φ : BreakpointGroup → BreakpointGroup}
    (hφ : ∀ g, ∀ id ∈ (φ g).breakpoints, id ∈ g.breakpoints)
    (h : memberInvariant gs) : memberInvariant (gs.map φ) := by
  unfold memberInvariant at h ⊢
  rw [List.pairwise_map]
  exact h.imp (fun {a b} hab id hid hidb => hab id (hφ a id hid) (hφ b id hidb))

theorem memberInvariant_map_addFresh {gs : List BreakpointGroup}
    {gid x : String} (hnd : (gs.map (fun g => g.id)).Nodup)
    (hfresh : ∀ g ∈ gs, x ∉ g.breakpoints) (h : memberInvariant gs) :
    memberInvariant (gs.map (fun g =>
      if g.id = gid then { g with breakpoints := g.breakpoints ++ [x] }
      else g)) := by
  unfold memberInvariant at h ⊢
  rw [List.pairwise_map]
  have h2 : (gs.map (fun g => g.id)).Pairwise (fun a b => a ≠ b) := hnd
  rw [List.pairwise_map] at h2
  have hcomb := pairwise_and_of h h2
  apply pairwise_imp_of_mem _ hcomb
  intro a b ha hb hab
  obtain ⟨hdisj, hid⟩ := hab
  by_cases hA : a.id = gid <;> by_cases hB : b.id = gid
  · exact absurd (hA.trans hB.symm) hid
  · simp only [if_pos hA, if_neg hB]
    intro id hidmem
    rcases List.mem_append.mp hidmem with hin | hx
    · exact hdisj id hin
    · have hxx : id = x := by simpa using hx
      subst hxx
      exact hfresh b hb
  · simp only [if_neg hA, if_pos hB]
    intro id hidmem hcon
    rcases List.mem_append.mp hcon with hin | hx
    · exact hdisj id hidmem hin
    · have hxx : id = x := by simpa using hx
      subst hxx
      exact hfresh a ha hidmem
  · simp only [if_neg hA, if_neg hB]
    exact hdisj

/-! ### State-projection lemmas for the store operations -/

theorem removeBreakpointFromGroup_breakpoints (st : ManagerState)
    (bid gid : String) :
    (removeBreakpointFromGroup st bid gid).breakpoints = st.breakpoints := by
  unfold removeBreakpointFromGroup
  cases lookupGroup st.groups gid <;> rfl

theorem removeBreakpointFromGroup_host (st : ManagerState) (bid gid : String) :
    (removeBreakpointFromGroup st bid gid).host = st.host := by
  unfold removeBreakpointFromGroup
  cases lookupGroup st.groups gid <;> rfl

theorem addBreakpointToGroup_breakpoints (st : ManagerState)
    (bid gid : String) :
    (addBreakpointToGroup st bid gid).breakpoints = st.breakpoints := by
  unfold addBreakpointToGroup
  cases lookupGroup st.groups gid with
  | none => rfl
  | some g =>
    cases lookupBreakpoint st.breakpoints bid with
    | none => rfl
    | some r =>
      dsimp only
      by_cases hm : bid ∈ g.breakpoints
      · rw [if_pos hm]
      · rw [if_neg hm]

theorem addBreakpointToGroup_host (st : ManagerState) (bid gid : String) :
    (addBreakpointToGroup st bid gid).host = st.host := by
  unfold addBreakpointToGroup
  cases lookupGroup st.groups gid with
  | none => rfl
  | some g =>
    cases lookupBreakpoint st.breakpoints bid with
    | none => rfl
    | some r =>
      dsimp only
      by_cases hm : bid ∈ g.breakpoints
      · rw [if_pos hm]
      · rw [if_neg hm]

theorem groups_map_id_removeBreakpointFromGroup (st : ManagerState)
    (bid gid : String) :
    ((removeBreakpointFromGroup st bid gid).groups).map (fun g => g.id) =
      st.groups.map (fun g => g.id) := by
  unfold removeBreakpointFromGroup
  cases lookupGroup st.groups gid with
  | none => rfl
  | some g => exact updateFirstGroup_map_id _ _ _ (fun g => rfl)

theorem groups_map_id_addBreakpointToGroup (st : ManagerState)
    (bid gid : String) :
    ((addBreakpointToGroup st bid gid).groups).map (fun g => g.id) =
      st.groups.map (fun g => g.id) := by
  unfold addBreakpointToGroup
  cases lookupGroup st.groups gid with
  | none => rfl
  | some g =>
    cases lookupBreakpoint st.breakpoints bid with
    | none => rfl
    | some r =>
      dsimp only
      by_cases hm : bid ∈ g.breakpoints
      · rw [if_pos hm]
      · rw [if_neg hm]
        exact updateFirstGroup_map_id _ _ _ (fun g => rfl)

theorem groups_map_id_move (st : ManagerState) (bid gid : String) :
    ((moveBreakpointToGroupCore st bid gid).groups).map (fun g => g.id) =
      st.groups.map (fun g => g.id) := by
  unfold moveBreakpointToGroupCore
  cases getGroupForBreakpoint st bid with
  | none => exact groups_map_id_addBreakpointToGroup _ _ _
  | some cur =>
    rw [groups_map_id_addBreakpointToGroup,
      groups_map_id_removeBreakpointFromGroup]

theorem memberInvariant_remove (st : ManagerState) (bid gid : String)
    (hnd : (st.groups.map (fun g => g.id)).Nodup)
    (h : memberInvariant st.groups) :
    memberInvariant (removeBreakpointFromGroup st bid gid).groups := by
  unfold removeBreakpointFromGroup
  cases lookupGroup st.groups gid with
  | none => exact h
  | some g =>
    show memberInvariant (updateFirstGroup st.groups gid
      (fun g => { g with
        breakpoints := g.breakpoints.filter (fun id => id != bid) }))
    rw [updateFirstGroup_eq_map _ _ _ hnd]
    apply memberInvariant_map_shrink _ h
    intro g' id hid
    by_cases hg : g'.id = gid
    · rw [if_pos hg] at hid
      exact (List.mem_filter.mp hid).1
    · rwa [if_neg hg] at hid

theorem memberInvariant_add_of_fresh (st : ManagerState) (bid gid : String)
    (hnd : (st.groups.map (fun g => g.id)).Nodup)
    (h : memberInvariant st.groups)
    (hfresh : ∀ g ∈ st.groups, bid ∉ g.breakpoints) :
    memberInvariant (addBreakpointToGroup st bid gid).groups := by
  unfold addBreakpointToGroup
  cases lookupGroup st.groups gid with
  | none => exact h
  | some g =>
    cases lookupBreakpoint st.breakpoints bid with
    | none => exact h
    | some r =>
      dsimp only
      by_cases hm : bid ∈ g.breakpoints
      · rw [if_pos hm]; exact h
      · rw [if_neg hm]
        show memberInvariant (updateFirstGroup st.groups gid
          (fun g => { g with breakpoints := g.breakpoints ++ [bid] }))
        rw [updateFirstGroup_eq_map _ _ _ hnd]
        exact memberInvariant_map_addFresh hnd hfresh h

theorem not_mem_after_removeFromCurrent (st : ManagerState) (bid : String)
    {cur : BreakpointGroup}
    (hnd : (st.groups.map (fun g => g.id)).Nodup)
    (h : memberInvariant st.groups)
    (hcur : getGroupForBreakpoint st bid = some cur) :
    ∀ g ∈ (removeBreakpointFromGroup st bid cur.id).groups,
      bid ∉ g.breakpoints := by
  have hcurmem : cur ∈ st.groups := List.mem_of_find?_eq_some hcur
  have hbid : bid ∈ cur.breakpoints := by
    have := List.find?_some hcur
    simpa using this
  have hlook : lookupGroup st.groups cur.id = some cur := by
    unfold lookupGroup
    exact find?_beq_key_self (fun g => g.id) hnd hcurmem
  unfold removeBreakpointFromGroup
  rw [hlook]
  intro g' hg'
  have hg2 : g' ∈ updateFirstGroup st.groups cur.id
      (fun g => { g with
        breakpoints := g.breakpoints.filter (fun id => id != bid) }) := hg'
  rw [updateFirstGroup_eq_map _ _ _ hnd] at hg2
  obtain ⟨g0, hg0, rfl⟩ := List.mem_map.mp hg2
  by_cases hid : g0.id = cur.id
  · rw [if_pos hid]
    intro hcon
    have hfl := (List.mem_filter.mp hcon).2
    simp at hfl
  · rw [if_neg hid]
    have hne : g0 ≠ cur := fun hc => hid (congrArg (fun g => g.id) hc)
    have hpw : st.groups.Pairwise (fun a b =>
        ∀ id ∈ a.breakpoints, id ∉ b.breakpoints) := h
    have hdisj := hpw.forall disjointBreakpoints_symm hg0 hcurmem hne
    exact fun hcon => hdisj bid hcon hbid

theorem memberInvariant_move (st : ManagerState) (bid gid : String)
    (hnd : (st.groups.map (fun g => g.id)).Nodup)
    (h : memberInvariant st.groups) :
    memberInvariant (moveBreakpointToGroupCore st bid gid).groups := by
  unfold moveBreakpointToGroupCore
  cases hcur : getGroupForBreakpoint st bid with
  | none =>
    apply memberInvariant_add_of_fresh _ _ _ hnd h
    intro g hg
    have := List.find?_eq_none.mp hcur g hg
    simpa using this
  | some cur =>
    have h1 := memberInvariant_remove st bid cur.id hnd h
    have hnd1 : ((removeBreakpointFromGroup st bid cur.id).groups.map
        (fun g => g.id)).Nodup := by
      rw [groups_map_id_removeBreakpointFromGroup]; exact hnd
    have hfresh := not_mem_after_removeFromCurrent st bid hnd h hcur
    exact memberInvariant_add_of_fresh _ _ _ hnd1 h1 hfresh

/-! ### Branch lemmas for `addBreakpointToGroup` -/

theorem addBreakpointToGroup_of_group_none (st : ManagerState)
    (bid gid : String) (h : lookupGroup st.groups gid = none) :
    addBreakpointToGroup st bid gid = st := by
  unfold addBreakpointToGroup
  rw [h]

theorem addBreakpointToGroup_of_mirror_none (st : ManagerState)
    (bid gid : String) (h : lookupBreakpoint st.breakpoints bid = none) :
    addBreakpointToGroup st bid gid = st := by
  unfold addBreakpointToGroup
  cases lookupGroup st.groups gid with
  | none => rfl
  | some g =>
    dsimp only
    rw [h]

theorem addBreakpointToGroup_of_mem (st : ManagerState) (bid gid : String)
    {g : BreakpointGroup} (hg : lookupGroup st.groups gid = some g)
    (hm : bid ∈ g.breakpoints) : addBreakpointToGroup st bid gid = st := by
  unfold addBreakpointToGroup
  rw [hg]
  cases lookupBreakpoint st.breakpoints bid with
  | none => rfl
  | some r =>
    dsimp only
    rw [if_pos hm]

theorem addBreakpointToGroup_groups_of_append (st : ManagerState)
    (bid gid : String) {g : BreakpointGroup}
    (hg : lookupGroup st.groups gid = some g)
    (hb : lookupBreakpoint st.breakpoints bid ≠ none)
    (hm : bid ∉ g.breakpoints) :
    (addBreakpointToGroup st bid gid).groups =
      updateFirstGroup st.groups gid
        (fun g => { g with breakpoints := g.breakpoints ++ [bid] }) := by
  obtain ⟨r, hr⟩ := Option.ne_none_iff_exists'.mp hb
  unfold addBreakpointToGroup
  rw [hg, hr]
  dsimp only
  rw [if_neg hm]

/-- Any sequence of move operations preserves the member invariant (and the
group ids), starting from a store with pairwise-distinct group ids. -/
theorem memberInvariant_applyOps_moves (ops : List StoreOp) :
    ∀ st : ManagerState, (st.groups.map (fun g => g.id)).Nodup →
    memberInvariant st.groups → (∀ op ∈ ops, op.isMove = true) →
    memberInvariant (applyOps st ops).groups := by
  induction ops with
  | nil => intro st _ h _; exact h
  | cons op rest ih =>
    intro st hnd h hmove
    cases op with
    | add b g =>
      exact absurd (hmove _ (List.mem_cons_self _ _)) (by simp [StoreOp.isMove])
    | move bid gid =>
      show memberInvariant
        (applyOps (moveBreakpointToGroupCore st bid gid) rest).groups
      apply ih
      · show ((moveBreakpointToGroupCore st bid gid).groups.map
          (fun g => g.id)).Nodup
        rw [groups_map_id_move]; exact hnd
      · exact memberInvariant_move st bid gid hnd h
      · exact fun op hop => hmove op (List.mem_cons_of_mem _ hop)

/-! ## Claim C1 — tri-state computation -/

/-- Claim C1: for every group in the store, the computed tri-state is
`allEnabled` iff the group has at least one present member and every present
member is enabled; `allDisabled` iff it has no present member (even when the
member list is non-empty but all orphaned) or no present member is enabled;
and `mixed` (the source's `'Partial'`) otherwise. -/
theorem claim_C1_tristate (st : ManagerState) (gid : String)
    (g : BreakpointGroup) (hg : lookupGroup st.groups gid = some g) :
    (resolveGroupState st gid = TriState.allEnabled ↔
      presentMembers st g ≠ [] ∧ ∀ bp ∈ presentMembers st g, bp.enabled = true)
    ∧ (resolveGroupState st gid = TriState.allDisabled ↔
      presentMembers st g = [] ∨ ∀ bp ∈ presentMembers st g, bp.enabled = false)
    ∧ (resolveGroupState st gid = TriState.mixed ↔
      ¬(presentMembers st g ≠ [] ∧
          ∀ bp ∈ presentMembers st g, bp.enabled = true) ∧
      ¬(presentMembers st g = [] ∨
          ∀ bp ∈ presentMembers st g, bp.enabled = false)) := by
  have hbps : getBreakpointsInGroup st gid = presentMembers st g := by
    unfold getBreakpointsInGroup presentMembers
    rw [hg]
  have hres : resolveGroupState st gid =
      (if (presentMembers st g).length = 0 then TriState.allDisabled
       else if ((presentMembers st g).filter (fun bp => bp.enabled)).length = 0
         then TriState.allDisabled
       else if ((presentMembers st g).filter (fun bp => bp.enabled)).length =
           (presentMembers st g).length then TriState.allEnabled
       else TriState.mixed) := by
    unfold resolveGroupState
    rw [hbps]
  rw [hres]
  set bps := presentMembers st g with hdef
  by_cases h1 : bps.length = 0
  · have hnil : bps = [] := List.length_eq_zero.mp h1
    rw [if_pos h1]
    refine ⟨⟨fun hc => (nomatch hc), fun hc => absurd hnil hc.1⟩,
      ⟨fun _ => Or.inl hnil, fun _ => rfl⟩,
      ⟨fun hc => (nomatch hc), fun hc => absurd (Or.inl hnil) hc.2⟩⟩
  · rw [if_neg h1]
    have hne : bps ≠ [] := fun hc => h1 (by rw [hc]; rfl)
    obtain ⟨bp0, hbp0⟩ := List.exists_mem_of_ne_nil bps hne
    by_cases h2 : (bps.filter (fun bp => bp.enabled)).length = 0
    · rw [if_pos h2]
      have hall : ∀ bp ∈ bps, bp.enabled = false :=
        (length_filter_eq_zero_iff _ _).mp h2
      refine ⟨⟨fun hc => (nomatch hc), ?_⟩,
        ⟨fun _ => Or.inr hall, fun _ => rfl⟩,
        ⟨fun hc => (nomatch hc), fun hc => absurd (Or.inr hall) hc.2⟩⟩
      rintro ⟨-, hen⟩
      have h1' := hen bp0 hbp0
      rw [hall bp0 hbp0] at h1'
      cases h1'
    · rw [if_neg h2]
      have hnotnone : ¬ ∀ bp ∈ bps, bp.enabled = false := fun hc =>
        h2 ((length_filter_eq_zero_iff _ _).mpr hc)
      by_cases h3 : (bps.filter (fun bp => bp.enabled)).length = bps.length
      · rw [if_pos h3]
        have hall : ∀ bp ∈ bps, bp.enabled = true :=
          (length_filter_eq_length_iff _ _).mp h3
        refine ⟨⟨fun _ => ⟨hne, hall⟩, fun _ => rfl⟩,
          ⟨fun hc => (nomatch hc), ?_⟩,
          ⟨fun hc => (nomatch hc), fun hc => absurd ⟨hne, hall⟩ hc.1⟩⟩
        rintro (hnil | hfalse)
        · exact absurd hnil hne
        · have h1' := hall bp0 hbp0
          rw [hfalse bp0 hbp0] at h1'
          cases h1'
      · rw [if_neg h3]
        have hnotall : ¬ ∀ bp ∈ bps, bp.enabled = true := fun hc =>
          h3 ((length_filter_eq_length_iff _ _).mpr hc)
        refine ⟨⟨fun hc => (nomatch hc), fun hc => absurd hc.2 hnotall⟩,
          ⟨fun hc => (nomatch hc), ?_⟩,
          ⟨fun _ => ⟨fun hc => hnotall hc.2, ?_⟩, fun _ => rfl⟩⟩
        · rintro (hnil | hfalse)
          · exact absurd hnil hne
          · exact absurd hfalse hnotnone
        · rintro (hnil | hfalse)
          · exact absurd hnil hne
          · exact absurd hfalse hnotnone

/-- Witness for C1 at a concrete mixed group: one enabled and one disabled
present member yield the `mixed` (`'Partial'`) state. -/
theorem claim_C1_tristate_witness :
    resolveGroupState stMixed "g" = TriState.mixed :=
  ((claim_C1_tristate stMixed "g"
      { id := "g", name := "G", breakpoints := ["a:10", "b:1"],
        enabled := true, color := none, description := none }
      (by decide)).2.2).mpr (by decide)

/-! ## Claim C2 — at-most-one-group invariant -/

/-- Counterexample for C2 as stated: from a state satisfying the invariant,
a single `addMember` call adds `a:10` — already a member of group `g1` — to
group `g2`, after which the identity appears in two groups' member lists. So
`addMember` can introduce an identity into a second group while it is still
a member of another group. -/
theorem claim_C2_counterexample :
    memberInvariant stTwoGroups.groups ∧
      ¬ memberInvariant (addBreakpointToGroup stTwoGroups "a:10" "g2").groups := by
  constructor
  · decide
  · decide

/-- Claim C2 amended: from a store with pairwise-distinct group ids
satisfying the invariant, any sequence of move operations preserves the
invariant, and a single `addMember` preserves it provided the identity is
not currently a member of any group other than the destination; `addMember`
alone, however, can introduce an identity into a second group (see the
counterexample). -/
theorem claim_C2_invariant (st : ManagerState)
    (hnd : (st.groups.map (fun g => g.id)).Nodup)
    (h : memberInvariant st.groups) :
    (∀ ops : List StoreOp, (∀ op ∈ ops, op.isMove = true) →
      memberInvariant (applyOps st ops).groups)
    ∧ (∀ bid gid : String,
      (∀ g ∈ st.groups, g.id ≠ gid → bid ∉ g.breakpoints) →
      memberInvariant (addBreakpointToGroup st bid gid).groups) := by
  constructor
  · intro ops hmove
    exact memberInvariant_applyOps_moves ops st hnd h hmove
  · intro bid gid hside
    cases hg : lookupGroup st.groups gid with
    | none => rw [addBreakpointToGroup_of_group_none st bid gid hg]; exact h
    | some gdest =>
      by_cases hm : bid ∈ gdest.breakpoints
      · rw [addBreakpointToGroup_of_mem st bid gid hg hm]; exact h
      · apply memberInvariant_add_of_fresh _ _ _ hnd h
        intro g hgmem
        by_cases hgid : g.id = gid
        · have hdm : gdest ∈ st.groups := List.mem_of_find?_eq_some hg
          have hdid : gdest.id = gid := by simpa using List.find?_some hg
          have hge : g = gdest :=
            List.inj_on_of_nodup_map hnd hgmem hdm (by rw [hgid, hdid])
          rw [hge]; exact hm
        · exact hside g hgmem hgid

/-- Witness for C2's amended claim: moving `a:10` from `g1` to `g2`
preserves the invariant, and re-adding it to its own group `g1` (where the
side condition holds) preserves it too. -/
theorem claim_C2_invariant_witness :
    memberInvariant (applyOps stTwoGroups [StoreOp.move "a:10" "g2"]).groups
    ∧ memberInvariant (addBreakpointToGroup stTwoGroups "a:10" "g1").groups :=
  ⟨(claim_C2_invariant stTwoGroups (by decide) (by decide)).1
      [StoreOp.move "a:10" "g2"] (by decide),
   (claim_C2_invariant stTwoGroups (by decide) (by decide)).2
      "a:10" "g1" (by decide)⟩

/-! ## Claim C10 — moving an orphaned member drops it -/

/-- Claim C10: moving a breakpoint identity absent from the mirror removes
it from its current group but does not add it to the destination, because
`addMember` requires the breakpoint to exist in the mirror: after the move
no group's member list contains the identity, and mirror and host are
untouched. (Stated for stores with pairwise-distinct group ids satisfying
the member invariant.) -/
theorem claim_C10_move_orphan (st : ManagerState) (bid destGid : String)
    (hmir : lookupBreakpoint st.breakpoints bid = none)
    (hnd : (st.groups.map (fun g => g.id)).Nodup)
    (h : memberInvariant st.groups) :
    (∀ g ∈ (moveBreakpointToGroupCore st bid destGid).groups,
      bid ∉ g.breakpoints)
    ∧ (moveBreakpointToGroupCore st bid destGid).breakpoints = st.breakpoints
    ∧ (moveBreakpointToGroupCore st bid destGid).host = st.host := by
  unfold moveBreakpointToGroupCore
  cases hcur : getGroupForBreakpoint st bid with
  | none =>
    dsimp only
    rw [addBreakpointToGroup_of_mirror_none st bid destGid hmir]
    refine ⟨?_, rfl, rfl⟩
    intro g hgmem
    have := List.find?_eq_none.mp hcur g hgmem
    simpa using this
  | some cur =>
    dsimp only
    have hmir1 : lookupBreakpoint
        (removeBreakpointFromGroup st bid cur.id).breakpoints bid = none := by
      rw [removeBreakpointFromGroup_breakpoints]; exact hmir
    rw [addBreakpointToGroup_of_mirror_none _ bid destGid hmir1]
    exact ⟨not_mem_after_removeFromCurrent st bid hnd h hcur,
      removeBreakpointFromGroup_breakpoints st bid cur.id,
      removeBreakpointFromGroup_host st bid cur.id⟩

/-- Witness for C10: moving the orphaned identity `zz` (a member of `g1`
but absent from the mirror) to `g2` leaves it in no group. -/
theorem claim_C10_move_orphan_witness :
    (∀ g ∈ (moveBreakpointToGroupCore stOrphan "zz" "g2").groups,
      "zz" ∉ g.breakpoints)
    ∧ (moveBreakpointToGroupCore stOrphan "zz" "g2").breakpoints =
        stOrphan.breakpoints
    ∧ (moveBreakpointToGroupCore stOrphan "zz" "g2").host = stOrphan.host :=
  claim_C10_move_orphan stOrphan "zz" "g2" (by decide) (by decide) (by decide)

/-! ## Claim C4 — remove-all-groups -/

/-- If every group's member list is empty, `ungrouped()` returns the whole
mirror. -/
theorem ungrouped_of_all_empty (st : ManagerState)
    (hempty : ∀ g ∈ st.groups, g.breakpoints = []) :
    getUngroupedBreakpoints st = st.breakpoints := by
  unfold getUngroupedBreakpoints
  rw [List.filter_eq_self]
  intro bp _
  have hany : isGroupedId st.groups bp.id = false := by
    unfold isGroupedId
    rw [List.any_eq_false]
    intro g hg
    rw [hempty g hg]
    simp
  rw [hany]
  rfl

/-- Counterexample for C4 as stated: after the confirmed remove-all-groups
command, the Group Store still contains the (emptied) group records, so
"no groups remain in the Group Store" fails. -/
theorem claim_C4_counterexample :
    (removeAllGroupsConfirmed stTwoGroups).groups ≠ [] := by decide

/-- Claim C4 amended: after the user confirms, the command empties every
group's member list — the group records themselves remain in the store —
and every previously grouped breakpoint becomes ungrouped: `ungrouped()`
returns the whole mirror, no breakpoint is deleted from mirror or host, and
no enabled flag changes (mirror and host are untouched). -/
theorem claim_C4_removeAllGroups (st : ManagerState) :
    (removeAllGroupsConfirmed st).groups =
      st.groups.map (fun g => { g with breakpoints := [] })
    ∧ (removeAllGroupsConfirmed st).breakpoints = st.breakpoints
    ∧ (removeAllGroupsConfirmed st).host = st.host
    ∧ getUngroupedBreakpoints (removeAllGroupsConfirmed st) =
        (removeAllGroupsConfirmed st).breakpoints := by
  unfold removeAllGroupsConfirmed
  by_cases h : st.groups.isEmpty
  · rw [if_pos h]
    have hnil : st.groups = [] := List.isEmpty_iff.mp h
    refine ⟨by rw [hnil]; rfl, rfl, rfl, ?_⟩
    apply ungrouped_of_all_empty
    intro g hg
    rw [hnil] at hg
    cases hg
  · rw [if_neg h]
    refine ⟨rfl, rfl, rfl, ?_⟩
    apply ungrouped_of_all_empty
    intro g hg
    obtain ⟨g0, -, rfl⟩ := List.mem_map.mp hg
    rfl

/-! ## Claim C7 — removeMember notification behaviour -/

/-- Counterexample for C7 as stated: with the group id absent from the
store, `removeMember` is a complete no-op — in particular it does not emit
the groups-changed notification, refuting "persists and notifies
unconditionally for every breakpointId and groupId". -/
theorem claim_C7_counterexample :
    removeBreakpointFromGroup emptyState "x" "g" = emptyState
    ∧ ¬ ((removeBreakpointFromGroup emptyState "x" "g").notifyCount =
        emptyState.notifyCount + 1) := by
  constructor
  · decide
  · decide

/-- Claim C7 amended: when the group exists, `removeMember` with an identity
that is not a member leaves every member list unchanged yet still persists
and emits a groups-changed notification; when the group id is absent the
call is a complete no-op (no persistence, no notification). -/
theorem claim_C7_removeMember (st : ManagerState) (bid gid : String) :
    (∀ g, lookupGroup st.groups gid = some g → bid ∉ g.breakpoints →
      (removeBreakpointFromGroup st bid gid).groups = st.groups
      ∧ (removeBreakpointFromGroup st bid gid).saveCount = st.saveCount + 1
      ∧ (removeBreakpointFromGroup st bid gid).notifyCount =
          st.notifyCount + 1)
    ∧ (lookupGroup st.groups gid = none →
      removeBreakpointFromGroup st bid gid = st) := by
  constructor
  · intro g hg hmem
    unfold removeBreakpointFromGroup
    rw [hg]
    refine ⟨?_, rfl, rfl⟩
    dsimp only
    apply updateFirstGroup_eq_self st.groups gid _ hg
    have hfil : g.breakpoints.filter (fun id => id != bid) = g.breakpoints := by
      rw [List.filter_eq_self]
      intro a ha
      exact bne_iff_ne.mpr (fun hc => hmem (hc ▸ ha))
    rw [hfil]
  · intro hnone
    unfold removeBreakpointFromGroup
    rw [hnone]

/-- Witness for C7's amended claim: removing `a:10` from `g2` (which does
not contain it) leaves the store unchanged but bumps both counters, and
removing from an absent group is a complete no-op. -/
theorem claim_C7_removeMember_witness :
    ((removeBreakpointFromGroup stTwoGroups "a:10" "g2").groups =
        stTwoGroups.groups
      ∧ (removeBreakpointFromGroup stTwoGroups "a:10" "g2").saveCount =
          stTwoGroups.saveCount + 1
      ∧ (removeBreakpointFromGroup stTwoGroups "a:10" "g2").notifyCount =
          stTwoGroups.notifyCount + 1)
    ∧ removeBreakpointFromGroup emptyState "x" "g" = emptyState :=
  ⟨(claim_C7_removeMember stTwoGroups "a:10" "g2").1
      { id := "g2", name := "B", breakpoints := [], enabled := true,
        color := none, description := none } (by decide) (by decide),
   (claim_C7_removeMember emptyState "x" "g").2 (by decide)⟩

/-! ## Claim C8 — single-breakpoint toggle -/

/-- Claim C8: `setEnabled` finds the host breakpoint by recomputed identity.
If found, it replaces it — remove old, add a new breakpoint with identical
location, condition, hit condition and log message but the new enabled
flag — and patches only the mirrored record's enabled field (the record with
that identity gets the new flag, every other record and every other state
component is untouched, and nothing is persisted or notified here). If no
host breakpoint matches, the entire call is a silent no-op. -/
theorem claim_C8_toggle (st : ManagerState) (bid : String) (e : Bool) :
    (st.host.find? (fun bp => generateBreakpointId bp == bid) = none →
      toggleBreakpoint st bid e = st)
    ∧ (∀ old,
      st.host.find? (fun bp => generateBreakpointId bp == bid) = some old →
      (toggleBreakpoint st bid e).host =
        removeFirst st.host old ++ [{ old with enabled := e }]
      ∧ lookupBreakpoint (toggleBreakpoint st bid e).breakpoints bid =
          (lookupBreakpoint st.breakpoints bid).map
            (fun r => { r with enabled := e })
      ∧ (∀ k, k ≠ bid →
          lookupBreakpoint (toggleBreakpoint st bid e).breakpoints k =
            lookupBreakpoint st.breakpoints k)
      ∧ (toggleBreakpoint st bid e).groups = st.groups
      ∧ (toggleBreakpoint st bid e).saveCount = st.saveCount
      ∧ (toggleBreakpoint st bid e).notifyCount = st.notifyCount) := by
  constructor
  · intro hnone
    unfold toggleBreakpoint
    rw [hnone]
  · intro old hold
    unfold toggleBreakpoint
    rw [hold]
    exact ⟨rfl, lookupBreakpoint_patchEnabled_self st.breakpoints bid e,
      fun k hk => lookupBreakpoint_patchEnabled_ne st.breakpoints bid k e hk,
      rfl, rfl, rfl⟩

/-- Witness for C8: toggling the unknown identity `zz` is a complete no-op,
while disabling `a:10` replaces the host breakpoint and patches the
mirrored record's enabled flag. -/
theorem claim_C8_toggle_witness :
    toggleBreakpoint stScenario "zz" true = stScenario
    ∧ (toggleBreakpoint stScenario "a:10" false).host =
        removeFirst stScenario.host hostA ++ [{ hostA with enabled := false }]
    ∧ lookupBreakpoint (toggleBreakpoint stScenario "a:10" false).breakpoints
        "a:10" =
      (lookupBreakpoint stScenario.breakpoints "a:10").map
        (fun r => { r with enabled := false }) :=
  ⟨(claim_C8_toggle stScenario "zz" true).1 (by decide),
   ((claim_C8_toggle stScenario "a:10" false).2 hostA (by decide)).1,
   ((claim_C8_toggle stScenario "a:10" false).2 hostA (by decide)).2.1⟩

/-! ## Claim C9 — addMember idempotence and no-op conditions -/

/-- Claim C9: `addMember` is idempotent on the group store — calling it
twice yields the same member lists as calling it once. It is a no-op when
the group is absent, when the breakpoint is absent from the mirror, or when
the identity is already a member; otherwise it appends the identity at the
end of the destination's member list and leaves every other group
unchanged. -/
theorem claim_C9_addMember (st : ManagerState) (bid gid : String) :
    (addBreakpointToGroup (addBreakpointToGroup st bid gid) bid gid).groups =
      (addBreakpointToGroup st bid gid).groups
    ∧ (lookupGroup st.groups gid = none → addBreakpointToGroup st bid gid = st)
    ∧ (lookupBreakpoint st.breakpoints bid = none →
        addBreakpointToGroup st bid gid = st)
    ∧ (∀ g, lookupGroup st.groups gid = some g → bid ∈ g.breakpoints →
        addBreakpointToGroup st bid gid = st)
    ∧ (∀ g, lookupGroup st.groups gid = some g →
        lookupBreakpoint st.breakpoints bid ≠ none → bid ∉ g.breakpoints →
        lookupGroup (addBreakpointToGroup st bid gid).groups gid =
          some { g with breakpoints := g.breakpoints ++ [bid] }
        ∧ ∀ gid2, gid2 ≠ gid →
          lookupGroup (addBreakpointToGroup st bid gid).groups gid2 =
            lookupGroup st.groups gid2) := by
  have happend : ∀ g, lookupGroup st.groups gid = some g →
      lookupBreakpoint st.breakpoints bid ≠ none → bid ∉ g.breakpoints →
      (addBreakpointToGroup st bid gid).groups =
        updateFirstGroup st.groups gid
          (fun g => { g with breakpoints := g.breakpoints ++ [bid] }) :=
    fun g hg hb hm => addBreakpointToGroup_groups_of_append st bid gid hg hb hm
  refine ⟨?_, fun h => addBreakpointToGroup_of_group_none st bid gid h,
    fun h => addBreakpointToGroup_of_mirror_none st bid gid h,
    fun g hg hm => addBreakpointToGroup_of_mem st bid gid hg hm, ?_⟩
  · -- idempotence
    cases hg : lookupGroup st.groups gid with
    | none =>
      rw [addBreakpointToGroup_of_group_none st bid gid hg,
        addBreakpointToGroup_of_group_none st bid gid hg]
    | some g =>
      cases hb : lookupBreakpoint st.breakpoints bid with
      | none =>
        rw [addBreakpointToGroup_of_mirror_none st bid gid hb,
          addBreakpointToGroup_of_mirror_none st bid gid hb]
      | some r =>
        by_cases hm : bid ∈ g.breakpoints
        · rw [addBreakpointToGroup_of_mem st bid gid hg hm,
            addBreakpointToGroup_of_mem st bid gid hg hm]
        · have hbne : lookupBreakpoint st.breakpoints bid ≠ none := by
            rw [hb]; exact Option.some_ne_none r
          have h1 := addBreakpointToGroup_groups_of_append st bid gid hg hbne hm
          have hg1 : lookupGroup (addBreakpointToGroup st bid gid).groups gid =
              some { g with breakpoints := g.breakpoints ++ [bid] } := by
            rw [h1, lookupGroup_updateFirstGroup_self st.groups gid
              (fun g => { g with breakpoints := g.breakpoints ++ [bid] })
              (fun g => rfl), hg]
            rfl
          have hm1 : bid ∈ ({ g with breakpoints := g.breakpoints ++ [bid] } :
              BreakpointGroup).breakpoints := by
            simp
          rw [addBreakpointToGroup_of_mem (addBreakpointToGroup st bid gid)
            bid gid hg1 hm1]
  · -- append characterisation
    intro g hg hb hm
    refine ⟨?_, ?_⟩
    · rw [happend g hg hb hm,
        lookupGroup_updateFirstGroup_self st.groups gid
          (fun g => { g with breakpoints := g.breakpoints ++ [bid] })
          (fun g => rfl), hg]
      rfl
    · intro gid2 hgid2
      rw [happend g hg hb hm,
        lookupGroup_updateFirstGroup_ne st.groups gid gid2
          (fun g => { g with breakpoints := g.breakpoints ++ [bid] })
          (fun g => rfl) hgid2]

/-- Witness for C9 at concrete inputs: absent group, absent breakpoint,
already-member and append cases. -/
theorem claim_C9_addMember_witness :
    addBreakpointToGroup stTwoGroups "a:10" "gX" = stTwoGroups
    ∧ addBreakpointToGroup stTwoGroups "zz" "g2" = stTwoGroups
    ∧ addBreakpointToGroup stTwoGroups "a:10" "g1" = stTwoGroups
    ∧ lookupGroup (addBreakpointToGroup stTwoGroups "a:10" "g2").groups "g2" =
        some { id := "g2", name := "B", breakpoints := ["a:10"],
               enabled := true, color := none, description := none } :=
  ⟨(claim_C9_addMember stTwoGroups "a:10" "gX").2.1 (by decide),
   (claim_C9_addMember stTwoGroups "zz" "g2").2.2.1 (by decide),
   (claim_C9_addMember stTwoGroups "a:10" "g1").2.2.2.1
     { id := "g1", name := "A", breakpoints := ["a:10"], enabled := true,
       color := none, description := none } (by decide) (by decide),
   ((claim_C9_addMember stTwoGroups "a:10" "g2").2.2.2.2
     { id := "g2", name := "B", breakpoints := [], enabled := true,
       color := none, description := none }
     (by decide) (by decide) (by decide)).1⟩

/-! ## Claim C5 — checkbox batch processing -/

/-- A batch without an individual-breakpoint disable is processed in full,
in order. -/
theorem processBatch_no_disable (batch : List (CheckboxItem × Bool)) :
    ∀ st : ManagerState, (∀ ev ∈ batch, isBreakpointDisable ev = false) →
    processCheckboxBatch st batch = batch.foldl applyCheckboxEvent st := by
  induction batch with
  | nil => intro st _; rfl
  | cons ev rest ih =>
    intro st hall
    obtain ⟨item, checked⟩ := ev
    have hrest : ∀ e ∈ rest, isBreakpointDisable e = false :=
      fun e he => hall e (List.mem_cons_of_mem _ he)
    cases item with
    | groupItem gid =>
      calc processCheckboxBatch st ((CheckboxItem.groupItem gid, checked) :: rest)
          = processCheckboxBatch
              (if checked then enableGroup st gid else disableGroup st gid)
              rest := rfl
        _ = rest.foldl applyCheckboxEvent
              (if checked then enableGroup st gid else disableGroup st gid) :=
            ih _ hrest
        _ = ((CheckboxItem.groupItem gid, checked) :: rest).foldl
              applyCheckboxEvent st := by rw [List.foldl_cons]; rfl
    | breakpointItem bid =>
      have hch : checked = true := by
        have hh := hall (CheckboxItem.breakpointItem bid, checked)
          (List.mem_cons_self _ _)
        unfold isBreakpointDisable at hh
        simpa using hh
      subst hch
      calc processCheckboxBatch st
              ((CheckboxItem.breakpointItem bid, true) :: rest)
          = processCheckboxBatch (cmdEnableBreakpoint st bid) rest := rfl
        _ = rest.foldl applyCheckboxEvent (cmdEnableBreakpoint st bid) :=
            ih _ hrest
        _ = ((CheckboxItem.breakpointItem bid, true) :: rest).foldl
              applyCheckboxEvent st := by rw [List.foldl_cons]; rfl

/-- Processing stops right after the first individual-breakpoint disable:
the items before it and the disable itself are applied in order, nothing
after it is. -/
theorem processBatch_stops (pre : List (CheckboxItem × Bool)) :
    ∀ (st : ManagerState) (item : CheckboxItem × Bool)
      (rest : List (CheckboxItem × Bool)),
    (∀ ev ∈ pre, isBreakpointDisable ev = false) →
    isBreakpointDisable item = true →
    processCheckboxBatch st (pre ++ item :: rest) =
      (pre ++ [item]).foldl applyCheckboxEvent st := by
  induction pre with
  | nil =>
    intro st item rest _ hdis
    obtain ⟨it, checked⟩ := item
    cases it with
    | groupItem gid => unfold isBreakpointDisable at hdis; cases hdis
    | breakpointItem bid =>
      have hch : checked = false := by
        unfold isBreakpointDisable at hdis
        simpa using hdis
      subst hch
      rfl
  | cons ev pre ih =>
    intro st item rest hpre hdis
    obtain ⟨it, checked⟩ := ev
    have hev := hpre (it, checked) (List.mem_cons_self _ _)
    have hrest : ∀ e ∈ pre, isBreakpointDisable e = false :=
      fun e he => hpre e (List.mem_cons_of_mem _ he)
    cases it with
    | groupItem gid =>
      calc processCheckboxBatch st
              (((CheckboxItem.groupItem gid, checked) :: pre) ++ item :: rest)
          = processCheckboxBatch
              (if checked then enableGroup st gid else disableGroup st gid)
              (pre ++ item :: rest) := rfl
        _ = (pre ++ [item]).foldl applyCheckboxEvent
              (if checked then enableGroup st gid else disableGroup st gid) :=
            ih _ item rest hrest hdis
        _ = (((CheckboxItem.groupItem gid, checked) :: pre) ++ [item]).foldl
              applyCheckboxEvent st := by
            rw [List.cons_append, List.foldl_cons]; rfl
    | breakpointItem bid =>
      have hch : checked = true := by
        unfold isBreakpointDisable at hev
        simpa using hev
      subst hch
      calc processCheckboxBatch st
              (((CheckboxItem.breakpointItem bid, true) :: pre) ++ item :: rest)
          = processCheckboxBatch (cmdEnableBreakpoint st bid)
              (pre ++ item :: rest) := rfl
        _ = (pre ++ [item]).foldl applyCheckboxEvent
              (cmdEnableBreakpoint st bid) := ih _ item rest hrest hdis
        _ = (((CheckboxItem.breakpointItem bid, true) :: pre) ++ [item]).foldl
              applyCheckboxEvent st := by
            rw [List.cons_append, List.foldl_cons]; rfl

/-- Claim C5: the checkbox handler applies a batch in order, but stops
immediately after the first individual-breakpoint disable: items strictly
after it are never applied, while a batch containing no individual-breakpoint
disable (group toggles and breakpoint enables) is processed in full. -/
theorem claim_C5_checkboxBatch (st : ManagerState)
    (batch : List (CheckboxItem × Bool)) :
    ((∀ ev ∈ batch, isBreakpointDisable ev = false) →
      processCheckboxBatch st batch = batch.foldl applyCheckboxEvent st)
    ∧ (∀ pre item rest, batch = pre ++ item :: rest →
      (∀ ev ∈ pre, isBreakpointDisable ev = false) →
      isBreakpointDisable item = true →
      processCheckboxBatch st batch =
        (pre ++ [item]).foldl applyCheckboxEvent st) :=
  ⟨fun h => processBatch_no_disable batch st h,
   fun pre item rest hb hpre hdis => by
     rw [hb]
     exact processBatch_stops pre st item rest hpre hdis⟩

/-- Witness for C5: in a batch of a group toggle, a breakpoint disable and a
breakpoint enable, only the prefix through the disable is applied; a batch
with only enables is processed in full. -/
theorem claim_C5_checkboxBatch_witness :
    processCheckboxBatch stMixed
        [(CheckboxItem.groupItem "g", false),
         (CheckboxItem.breakpointItem "a:10", false),
         (CheckboxItem.breakpointItem "b:1", true)] =
      ([(CheckboxItem.groupItem "g", false),
        (CheckboxItem.breakpointItem "a:10", false)]).foldl
        applyCheckboxEvent stMixed
    ∧ processCheckboxBatch stMixed [(CheckboxItem.breakpointItem "b:1", true)] =
        ([(CheckboxItem.breakpointItem "b:1", true)]).foldl
          applyCheckboxEvent stMixed :=
  ⟨(claim_C5_checkboxBatch stMixed _).2
      [(CheckboxItem.groupItem "g", false)]
      (CheckboxItem.breakpointItem "a:10", false)
      [(CheckboxItem.breakpointItem "b:1", true)]
      rfl (by decide) (by decide),
   (claim_C5_checkboxBatch stMixed _).1 (by decide)⟩

/-! ## Claim C6 — ungrouped/present-members partition -/

/-- Claim C6: for every state whose mirror and group store have
pairwise-distinct keys (the `Map` representation invariant), `ungrouped()`
together with the union over all groups of their present-member lists covers
exactly the full mirror, and `ungrouped()` is disjoint from every group's
present-member list. -/
theorem claim_C6_partition (st : ManagerState)
    (hndB : (st.breakpoints.map (fun bp => bp.id)).Nodup)
    (hndG : (st.groups.map (fun g => g.id)).Nodup) :
    (∀ bp, bp ∈ st.breakpoints ↔
      (bp ∈ getUngroupedBreakpoints st ∨
        ∃ g ∈ st.groups, bp ∈ getBreakpointsInGroup st g.id))
    ∧ (∀ g ∈ st.groups, ∀ bp,
      ¬(bp ∈ getUngroupedBreakpoints st ∧
        bp ∈ getBreakpointsInGroup st g.id)) := by
  constructor
  · intro bp
    constructor
    · intro hbp
      by_cases hgr : isGroupedId st.groups bp.id = true
      · right
        unfold isGroupedId at hgr
        rw [List.any_eq_true] at hgr
        obtain ⟨g, hgmem, hgin⟩ := hgr
        rw [decide_eq_true_eq] at hgin
        refine ⟨g, hgmem, ?_⟩
        unfold getBreakpointsInGroup
        have hlook : lookupGroup st.groups g.id = some g := by
          unfold lookupGroup
          exact find?_beq_key_self (fun g => g.id) hndG hgmem
        rw [hlook, List.mem_filterMap]
        refine ⟨bp.id, hgin, ?_⟩
        unfold lookupBreakpoint
        exact find?_beq_key_self (fun b => b.id) hndB hbp
      · left
        unfold getUngroupedBreakpoints
        rw [List.mem_filter]
        refine ⟨hbp, ?_⟩
        simp only [Bool.not_eq_true] at hgr
        rw [hgr]
        rfl
    · intro h
      rcases h with hun | ⟨g, hgmem, hpm⟩
      · exact (List.mem_filter.mp hun).1
      · unfold getBreakpointsInGroup at hpm
        cases hlg : lookupGroup st.groups g.id with
        | none => rw [hlg] at hpm; cases hpm
        | some gfound =>
          rw [hlg] at hpm
          rw [List.mem_filterMap] at hpm
          obtain ⟨m, hm, hfind⟩ := hpm
          exact List.mem_of_find?_eq_some hfind
  · rintro g hgmem bp ⟨hun, hpm⟩
    have hnotg : isGroupedId st.groups bp.id = false := by
      have hh := (List.mem_filter.mp hun).2
      simpa using hh
    unfold getBreakpointsInGroup at hpm
    cases hlg : lookupGroup st.groups g.id with
    | none => rw [hlg] at hpm; cases hpm
    | some gfound =>
      rw [hlg] at hpm
      rw [List.mem_filterMap] at hpm
      obtain ⟨m, hm, hfind⟩ := hpm
      have hid : bp.id = m := by
        have hh := List.find?_some hfind
        simpa using hh
      have hgfmem : gfound ∈ st.groups := List.mem_of_find?_eq_some hlg
      have hcon : isGroupedId st.groups bp.id = true := by
        unfold isGroupedId
        rw [List.any_eq_true]
        refine ⟨gfound, hgfmem, ?_⟩
        rw [decide_eq_true_eq, hid]
        exact hm
      rw [hnotg] at hcon
      cases hcon

/-- Witness for C6 at a concrete state: the grouped breakpoint `a:10`
satisfies the partition equivalence. -/
theorem claim_C6_partition_witness :
    infoA ∈ stTwoGroups.breakpoints ↔
      (infoA ∈ getUngroupedBreakpoints stTwoGroups ∨
        ∃ g ∈ stTwoGroups.groups,
          infoA ∈ getBreakpointsInGroup stTwoGroups g.id) :=
  (claim_C6_partition stTwoGroups (by decide) (by decide)).1 infoA

/-! ## Claim C3 — setGroupEnabled forces member flags -/

/-- Claim C3: `setGroupEnabled` (`enableGroup`/`disableGroup`) sets the
group's enabled flag, and — once the host's breakpoint-change events from
the replace calls have been processed (`syncBreakpoints`) — forces the
enabled state of every current member present in the mirror to match: the
matching host breakpoint is replaced by an equal one carrying the new flag,
the member's mirrored record (whenever one survives) carries the new flag,
and for a member matched in the host the mirrored record is exactly the
record of the replacement breakpoint. (Stated for a host list with
pairwise-distinct identities and a duplicate-free member list, the `Map`
and store representation invariants.) -/
theorem claim_C3_setGroupEnabled (st : ManagerState) (gid : String) (e : Bool)
    (g : BreakpointGroup) (hg : lookupGroup st.groups gid = some g)
    (hndH : (st.host.map generateBreakpointId).Nodup)
    (hndM : g.breakpoints.Nodup) :
    lookupGroup (syncBreakpoints (setGroupEnabled st gid e)).groups gid =
      some { g with enabled := e }
    ∧ ∀ m ∈ g.breakpoints, lookupBreakpoint st.breakpoints m ≠ none →
      ((∀ r, lookupBreakpoint
          (syncBreakpoints (setGroupEnabled st gid e)).breakpoints m = some r →
          r.enabled = e)
      ∧ ∀ old,
          st.host.find? (fun bp => generateBreakpointId bp == m) = some old →
          ({ old with enabled := e } ∈
            (syncBreakpoints (setGroupEnabled st gid e)).host
          ∧ lookupBreakpoint
              (syncBreakpoints (setGroupEnabled st gid e)).breakpoints m =
            some (toBreakpointInfo { old with enabled := e }))) := by
  have hstate : setGroupEnabled st gid e =
      { st with
        groups := updateFirstGroup st.groups gid
          (fun g => { g with enabled := e })
        host := updateGroupBreakpointsHost st.host st.breakpoints e
          g.breakpoints st.host
        saveCount := st.saveCount + 1
        notifyCount := st.notifyCount + 1 } := by
    unfold setGroupEnabled
    rw [hg]
  have hgroups : (syncBreakpoints (setGroupEnabled st gid e)).groups =
      updateFirstGroup st.groups gid (fun g => { g with enabled := e }) := by
    rw [hstate]; rfl
  have hhost : (syncBreakpoints (setGroupEnabled st gid e)).host =
      updateGroupBreakpointsHost st.host st.breakpoints e
        g.breakpoints st.host := by
    rw [hstate]; rfl
  have hmirror : (syncBreakpoints (setGroupEnabled st gid e)).breakpoints =
      buildMirror (updateGroupBreakpointsHost st.host st.breakpoints e
        g.breakpoints st.host) := by
    rw [hstate]; rfl
  constructor
  · rw [hgroups, lookupGroup_updateFirstGroup_self st.groups gid
      (fun g => { g with enabled := e }) (fun g => rfl), hg]
    rfl
  · intro m hm hmir
    cases hfind : st.host.find? (fun bp => generateBreakpointId bp == m) with
    | none =>
      have hfil : st.host.filter (fun bp => generateBreakpointId bp == m) = [] := by
        rw [filter_eq_nil_iff_all]
        intro bp hbp
        have hh := List.find?_eq_none.mp hfind bp hbp
        simpa using hh
      have hfil2 : (updateGroupBreakpointsHost st.host st.breakpoints e
          g.breakpoints st.host).filter
            (fun bp => generateBreakpointId bp == m) = [] := by
        rw [ugbHost_filter_nofind st.host st.breakpoints e g.breakpoints
          m hfind st.host]
        exact hfil
      have hnone : lookupBreakpoint (buildMirror
          (updateGroupBreakpointsHost st.host st.breakpoints e
            g.breakpoints st.host)) m = none := by
        rw [lookupBreakpoint_buildMirror,
          reverse_find?_of_filter_nil hfil2]
      constructor
      · intro r hr
        rw [hmirror, hnone] at hr
        cases hr
      · intro old hold
        cases hold
    | some old =>
      have hfil : st.host.filter (fun bp => generateBreakpointId bp == m) =
          [old] :=
        filter_beq_key_of_find? generateBreakpointId hndH hfind
      have htgt : (updateGroupBreakpointsHost st.host st.breakpoints e
          g.breakpoints st.host).filter
            (fun bp => generateBreakpointId bp == m) =
          [{ old with enabled := e }] :=
        ugbHost_filter_target st.host st.breakpoints e g.breakpoints m old
          hmir hfind st.host hndM hm hfil
      have hlook : lookupBreakpoint (buildMirror
          (updateGroupBreakpointsHost st.host st.breakpoints e
            g.breakpoints st.host)) m =
          some (toBreakpointInfo { old with enabled := e }) := by
        rw [lookupBreakpoint_buildMirror,
          reverse_find?_of_filter_singleton htgt]
      constructor
      · intro r hr
        rw [hmirror, hlook] at hr
        cases hr
        rfl
      · intro old2 hold2
        cases hold2
        constructor
        · rw [hhost]
          have hmem2 : { old with enabled := e } ∈
              (updateGroupBreakpointsHost st.host st.breakpoints e
                g.breakpoints st.host).filter
                (fun bp => generateBreakpointId bp == m) := by
            rw [htgt]
            exact List.mem_cons_self _ _
          exact List.mem_of_mem_filter hmem2
        · rw [hmirror]
          exact hlook

/-- Witness for C3, the claim's scenario: create group `DB`, add breakpoint
`a:10`, disable the group; after the change events settle, the mirrored
record for `a:10` is the disabled replacement's record (so `enabled = false`),
and the disabled replacement breakpoint is in the host. -/
theorem claim_C3_setGroupEnabled_witness :
    lookupBreakpoint (syncBreakpoints (disableGroup (addBreakpointToGroup
        (createGroup stScenario "g1" "DB" none) "a:10" "g1") "g1")).breakpoints
      "a:10" = some (toBreakpointInfo { hostA with enabled := false })
    ∧ ({ hostA with enabled := false } ∈
        (syncBreakpoints (disableGroup (addBreakpointToGroup
          (createGroup stScenario "g1" "DB" none) "a:10" "g1") "g1")).host) :=
  have happ := ((claim_C3_setGroupEnabled
    (addBreakpointToGroup (createGroup stScenario "g1" "DB" none) "a:10" "g1")
    "g1" false
    { id := "g1", name := "DB", breakpoints := ["a:10"], enabled := true,
      color := none, description := none }
    (by decide) (by decide) (by decide)).2
    "a:10" (by decide) (by decide)).2 hostA (by decide)
  ⟨happ.2, happ.1⟩

end BreakpointBucket
